import Mathlib

/-!
Shallow embedding of `src/model.py` from the `nisgd` repository: a
fully-connected network builder (`Net`), a configuration resolver
(`default_model`) and an activation selector (`select_activation`).

Tensors are modelled over `ℚ`: a weight matrix is a list of rows
(`List (List ℚ)`, one row per output feature, as in the framework's
`nn.Linear`), a bias vector is a `List ℚ`, and a batch is a list of
samples.  The framework-supplied pieces (random parameter entries at
layer construction, the pointwise GELU and sigmoid transcendental
functions, the Xavier-uniform sampler) are parameters of the
corresponding definitions; their shape contracts appear as explicit
hypotheses where a theorem needs them.
-/

namespace NISGD

/-- Modelled from the spec: the activation-kind enumeration `ActivType`
is imported from `src/utils.py`, which is absent from the sources; the
spec lists exactly the members GELU, RELU, SIGMOID, ID. -/
inductive ActivType where
  | GELU
  | RELU
  | SIGMOID
  | ID
deriving DecidableEq

/-- A Python value passed as `activation`: either a member of the
`ActivType` enumeration or some other, unrecognized value (modelled as a
string tag).  Python `==` against an enum member is false for any
non-member, which the embedding reflects by the sum structure. -/
abbrev ActivVal := ActivType ⊕ String

/-- A `hidden_size` value: an integer or a list of integers; the
constructor's `isinstance(his, list)` test distinguishes the two. -/
abbrev HSpec := Nat ⊕ List Nat

/-- Modelled from the spec: the `Container` configuration class comes
from `src/utils.py` (absent from the sources); the spec describes it as
an object with attributes `input_size`, `hidden_size`, `output_size`
and `activ_type`.  Each attribute may itself hold Python `None`, hence
the `Option` types. -/
structure Container where
  input_size : Option Nat
  hidden_size : Option HSpec
  output_size : Option Nat
  activ_type : Option ActivVal

/-- Embedding of `default_model(input_size, hidden_size, output_size,
activation, cfg)`: when `cfg` is present, every argument that is Python
`None` is replaced by the corresponding `cfg` attribute; otherwise the
arguments pass through unchanged.  The function performs no validation
and has no effects. -/
def default_model (input_size : Option Nat) (hidden_size : Option HSpec)
    (output_size : Option Nat) (activation : Option ActivVal)
    (cfg : Option Container) :
    Option Nat × Option HSpec × Option Nat × Option ActivVal :=
  match cfg with
  | none => (input_size, hidden_size, output_size, activation)
  | some c =>
      let input_size := match input_size with
        | none => c.input_size
        | some v => some v
      let hidden_size := match hidden_size with
        | none => c.hidden_size
        | some v => some v
      let output_size := match output_size with
        | none => c.output_size
        | some v => some v
      let activation := match activation with
        | none => c.activ_type
        | some v => some v
      (input_size, hidden_size, output_size, activation)

/-- The stateless activation module returned by `select_activation`:
one of `nn.GELU()`, `nn.ReLU()`, `nn.Sigmoid()`, `nn.Identity()`. -/
inductive ActModule where
  | gelu
  | relu
  | sigmoid
  | identity
deriving DecidableEq

/-- Pointwise semantics of an activation module applied to one feature
vector.  ReLU and Identity are exact; the transcendental GELU and
sigmoid pointwise functions are framework code, supplied as the
parameters `gf` and `sf`.  Every module is elementwise. -/
def ActModule.apply (t : ActModule) (gf sf : ℚ → ℚ) (v : List ℚ) : List ℚ :=
  match t with
  | .gelu => v.map gf
  | .relu => v.map (fun a => max 0 a)
  | .sigmoid => v.map sf
  | .identity => v

/-- An activation module applied to a batch: samplewise. -/
def ActModule.applyB (t : ActModule) (gf sf : ℚ → ℚ) (x : List (List ℚ)) :
    List (List ℚ) :=
  x.map (t.apply gf sf)

/-- Embedding of `select_activation(activation)`.  The first component
is the module returned; the second records whether the fallback notice
was printed (`True` exactly on the unrecognized/unset branch). -/
def select_activation (activation : Option ActivVal) : ActModule × Bool :=
  match activation with
  | some (Sum.inl ActivType.GELU) => (ActModule.gelu, false)
  | some (Sum.inl ActivType.RELU) => (ActModule.relu, false)
  | some (Sum.inl ActivType.SIGMOID) => (ActModule.sigmoid, false)
  | some (Sum.inl ActivType.ID) => (ActModule.identity, false)
  | _ => (ActModule.identity, true)

/-- Model of a framework linear layer `nn.Linear(inF, outF)`: the stored
dimensions, a weight matrix of `outF` rows of length `inF`, a bias of
length `outF`, and the gradient slots of weight and bias, which hold
`none` until a backward pass populates them (`tensor._grad` is Python
`None` on a freshly constructed layer). -/
structure Linear where
  inF : Nat
  outF : Nat
  weight : List (List ℚ)
  bias : List ℚ
  wgrad : Option (List (List ℚ)) := none
  bgrad : Option (List ℚ) := none
deriving DecidableEq

/-- Shape contract of a linear layer, as guaranteed by the framework
constructor: `outF` rows of width `inF`, and a bias of length `outF`. -/
def Linear.WF (l : Linear) : Prop :=
  l.weight.length = l.outF ∧ (∀ r ∈ l.weight, r.length = l.inF) ∧
    l.bias.length = l.outF

/-- Dot product of a weight row with a feature vector. -/
def dot (a b : List ℚ) : ℚ :=
  ((a.zip b).map (fun p => p.1 * p.2)).sum

/-- A linear layer applied to one sample: `W @ x + b`, one output
feature per weight row. -/
def Linear.apply (l : Linear) (s : List ℚ) : List ℚ :=
  (l.weight.zip l.bias).map (fun p => dot p.1 s + p.2)

/-- A linear layer applied to a batch: samplewise. -/
def Linear.applyB (l : Linear) (x : List (List ℚ)) : List (List ℚ) :=
  x.map l.apply

/-- A parameter supply modelling the framework's random initialization
inside `nn.Linear(a, b)`: given the two dimensions it yields the weight
entries and the bias entries. -/
def FreshWF (fresh : Nat → Nat → List (List ℚ) × List ℚ) : Prop :=
  ∀ a b : Nat, (fresh a b).1.length = b ∧ (∀ r ∈ (fresh a b).1, r.length = a) ∧
    (fresh a b).2.length = b

/-- Construction of `nn.Linear(a, b)`: dimensions stored, entries drawn
from the supply `fresh`, gradient slots empty. -/
def nnLinear (a b : Nat) (fresh : Nat → Nat → List (List ℚ) × List ℚ) :
    Linear :=
  { inF := a, outF := b, weight := (fresh a b).1, bias := (fresh a b).2 }

/-- A parameter supply that fills every entry with zero; it satisfies
`FreshWF` and serves to evaluate the construction on concrete inputs. -/
def zeroFresh (a b : Nat) : List (List ℚ) × List ℚ :=
  (List.replicate b (List.replicate a 0), List.replicate b 0)

/-- The network: an input layer, a list of hidden layers, an output
layer, and the shared activation module. -/
structure Net where
  fc_in : Linear
  fc_hid : List Linear
  fc_out : Linear
  act : ActModule
deriving DecidableEq

/-- Errors surfaced by the embedded operations: `indexError` models
`his[0]` on an empty list; `linearArgError` models the framework
rejecting a `nn.Linear` call whose dimension argument is Python `None`;
`gradAttributeError` models `None.cpu()` when a `_grad` slot is empty. -/
inductive PyError where
  | indexError
  | linearArgError
  | gradAttributeError
deriving DecidableEq

/-- The successful path of `Net.__init__` once the resolved sizes are
integers and the hidden list `his = h0 :: rest` is non-empty: the input
layer `nn.Linear(ins, his[0])`, one hidden layer per consecutive pair of
`his`, the output layer `nn.Linear(his[-1], ous)`, and the activation
chosen by `select_activation`. -/
def Net.build (ins h0 : Nat) (rest : List Nat) (ous : Nat)
    (acv : Option ActivVal) (fresh : Nat → Nat → List (List ℚ) × List ℚ) :
    Net :=
  let his := h0 :: rest
  { fc_in := nnLinear ins h0 fresh
    fc_hid := (his.zip his.tail).map (fun p => nnLinear p.1 p.2 fresh)
    fc_out := nnLinear (rest.getLastD h0) ous fresh
    act := (select_activation acv).1 }

/-- Embedding of `Net.__init__`: resolves the four values through
`default_model`, wraps a scalar `hidden_size` into a one-element list
(`his = [his]` when `his` is not a list; a Python `None` is likewise not
a list and becomes `[None]`), then builds the layers in order.  `his[0]`
on an empty list raises before any layer is built; a `nn.Linear` call
that receives a missing dimension fails inside the framework. -/
def Net.new (cfg : Option Container) (input_size : Option Nat)
    (hidden_size : Option HSpec) (output_size : Option Nat)
    (activation : Option ActivVal)
    (fresh : Nat → Nat → List (List ℚ) × List ℚ) : Except PyError Net :=
  let r := default_model input_size hidden_size output_size activation cfg
  match r.2.1 with
  | some (Sum.inr []) => .error .indexError
  | none => .error .linearArgError
  | some (Sum.inl n) =>
      match r.1, r.2.2.1 with
      | some ins, some ous => .ok (Net.build ins n [] ous r.2.2.2 fresh)
      | _, _ => .error .linearArgError
  | some (Sum.inr (h0 :: rest)) =>
      match r.1, r.2.2.1 with
      | some ins, some ous => .ok (Net.build ins h0 rest ous r.2.2.2 fresh)
      | _, _ => .error .linearArgError

/-- Embedding of `Net.forward` on a batch that is already in
`(batch, features)` form (the `x.view(x.shape[0], -1)` step is the
identity there): input layer, activation, each hidden layer followed by
the activation, then the output layer with no trailing activation. -/
def Net.forward (n : Net) (gf sf : ℚ → ℚ) (x : List (List ℚ)) :
    List (List ℚ) :=
  let x := n.fc_in.applyB x
  let x := n.act.applyB gf sf x
  let x := n.fc_hid.foldl (fun v l => n.act.applyB gf sf (l.applyB v)) x
  n.fc_out.applyB x

/-- Model of `x.view(x.shape[0], -1)` on a higher-rank batch: the
leading batch dimension is preserved and each sample is flattened to
one feature vector. -/
def tensorView (y : List (List (List ℚ))) : List (List ℚ) :=
  y.map List.flatten

/-- Embedding of `Net.initialize` (the weight-initialization method):
every layer's weight tensor is overwritten in place by the framework's
`nn.init.xavier_uniform_`, modelled as the sampler `xavier` acting on
the existing tensor; biases and every other field are not touched. -/
def Net.initWeights (n : Net) (xavier : List (List ℚ) → List (List ℚ)) :
    Net :=
  { fc_in := { n.fc_in with weight := xavier n.fc_in.weight }
    fc_hid := n.fc_hid.map (fun l => { l with weight := xavier l.weight })
    fc_out := { n.fc_out with weight := xavier n.fc_out.weight }
    act := n.act }

/-- Embedding of `Net.get_weights`: the flattened weight tensors of the
input layer, the hidden layers in order and the output layer,
concatenated by successive `torch.cat`. -/
def Net.get_weights (n : Net) : List ℚ :=
  let w := n.fc_in.weight.flatten
  let w := n.fc_hid.foldl (fun acc l => acc ++ l.weight.flatten) w
  w ++ n.fc_out.weight.flatten

/-- Embedding of `Net.get_biases`: the bias vectors of the input layer,
the hidden layers in order and the output layer, concatenated. -/
def Net.get_biases (n : Net) : List ℚ :=
  let b := n.fc_in.bias
  let b := n.fc_hid.foldl (fun acc l => acc ++ l.bias) b
  b ++ n.fc_out.bias

/-- Embedding of `Net.get_wb`: per layer in construction order, the
flattened weight tensor followed by the bias vector, all concatenated. -/
def Net.get_wb (n : Net) : List ℚ :=
  let wb := n.fc_in.weight.flatten ++ n.fc_in.bias
  let wb := n.fc_hid.foldl
    (fun acc l => acc ++ (l.weight.flatten ++ l.bias)) wb
  wb ++ (n.fc_out.weight.flatten ++ n.fc_out.bias)

/-- Reading `t._grad.cpu()`: fails with an attribute access on Python
`None` when the gradient slot has not been populated. -/
def gradCpu {α : Type} (g : Option α) : Except PyError α :=
  match g with
  | none => .error .gradAttributeError
  | some v => .ok v

/-- Embedding of `Net.get_grads`: per layer in construction order, the
flattened weight gradient followed by the bias gradient, all
concatenated; each read goes through the `_grad` slot. -/
def Net.get_grads (n : Net) : Except PyError (List ℚ) := do
  let gwIn ← gradCpu n.fc_in.wgrad
  let gbIn ← gradCpu n.fc_in.bgrad
  let g := gwIn.flatten ++ gbIn
  let g ← n.fc_hid.foldlM (fun acc l => do
    let gw ← gradCpu l.wgrad
    let gb ← gradCpu l.bgrad
    pure (acc ++ (gw.flatten ++ gb))) g
  let gwOut ← gradCpu n.fc_out.wgrad
  let gbOut ← gradCpu n.fc_out.bgrad
  pure (g ++ (gwOut.flatten ++ gbOut))

/-- The dimension chain of a network: the (in-width, out-width) pair of
every layer in construction order. -/
def Net.layerChain (n : Net) : List (Nat × Nat) :=
  (n.fc_in.inF, n.fc_in.outF) ::
    (n.fc_hid.map (fun l => (l.inF, l.outF)) ++ [(n.fc_out.inF, n.fc_out.outF)])

/-- Modelled from the spec: the comparator for the identity-activation
claim, the output obtained by "applying only the linear layers" in
sequence with no activation step at all. -/
def Net.linearOnly (n : Net) (x : List (List ℚ)) : List (List ℚ) :=
  n.fc_out.applyB (n.fc_hid.foldl (fun v l => l.applyB v) (n.fc_in.applyB x))

/-! Helper lemmas shared by several claims. -/

/-- The zero supply satisfies the framework's shape contract. -/
lemma zeroFresh_wf : FreshWF zeroFresh := by
  intro a b
  refine ⟨by simp [zeroFresh], ?_, by simp [zeroFresh]⟩
  intro r hr
  simp only [zeroFresh, List.mem_replicate] at hr
  simp [hr.2]

/-- A freshly constructed layer satisfies the shape contract. -/
lemma nnLinear_wf {fresh : Nat → Nat → List (List ℚ) × List ℚ}
    (hf : FreshWF fresh) (a b : Nat) : (nnLinear a b fresh).WF := by
  obtain ⟨h1, h2, h3⟩ := hf a b
  exact ⟨h1, h2, h3⟩

/-- Successive concatenation by a left fold equals the initial segment
followed by the flattened mapped list. -/
lemma foldl_append_flatten {α β : Type} (f : α → List β) :
    ∀ (l : List α) (init : List β),
      l.foldl (fun acc x => acc ++ f x) init = init ++ (l.map f).flatten := by
  intro l
  induction l with
  | nil => intro init; simp
  | cons x xs ih => intro init; simp [ih, List.append_assoc]

/-- Summing a pointwise sum of two functions splits into two sums. -/
lemma sum_map_add {α : Type} (f g : α → ℕ) (l : List α) :
    (l.map (fun x => f x + g x)).sum = (l.map f).sum + (l.map g).sum := by
  induction l with
  | nil => rfl
  | cons x xs ih => simp [ih]; omega

/-- Zipping a non-empty list with its tail extended by one element
appends the pair of the last element with the new one. -/
lemma zip_tail_snoc {α : Type} (e : α) :
    ∀ (h0 : α) (rest : List α),
      (h0 :: rest).zip (rest ++ [e])
        = (h0 :: rest).zip rest ++ [(rest.getLastD h0, e)] := by
  intro h0 rest
  induction rest generalizing h0 with
  | nil => simp [List.getLastD]
  | cons r rs ih =>
      simp only [List.cons_append, List.zip_cons_cons, ih r,
        List.getLastD_cons]

/-- The number of entries of a rectangular matrix. -/
lemma flatten_length_rect (m : List (List ℚ)) (b w : ℕ)
    (hlen : m.length = b) (hrow : ∀ r ∈ m, r.length = w) :
    m.flatten.length = b * w := by
  rw [List.length_flatten]
  have hm : m.map List.length = List.replicate b w := by
    refine List.eq_replicate_iff.2 ⟨by simp [hlen], ?_⟩
    intro x hx
    obtain ⟨r, hr, rfl⟩ := List.mem_map.1 hx
    exact hrow r hr
  rw [hm, List.sum_replicate, smul_eq_mul]

/-- A linear layer satisfying the shape contract emits one feature per
weight row. -/
lemma Linear.apply_length (l : Linear) (h : l.WF) (s : List ℚ) :
    (l.apply s).length = l.outF := by
  simp [Linear.apply, List.length_zip, h.1, h.2.2]

/-- Activation modules are elementwise: sample length is preserved. -/
lemma ActModule.apply_len_eq (t : ActModule) (gf sf : ℚ → ℚ) (v : List ℚ) :
    (t.apply gf sf v).length = v.length := by
  cases t <;> simp [ActModule.apply]

/-- The hidden-layer fold preserves the batch size. -/
lemma hidden_fold_length (act : ActModule) (gf sf : ℚ → ℚ) :
    ∀ (hid : List Linear) (x : List (List ℚ)),
      (hid.foldl (fun v l => act.applyB gf sf (l.applyB v)) x).length
        = x.length := by
  intro hid
  induction hid with
  | nil => intro x; rfl
  | cons l ls ih =>
      intro x
      simp only [List.foldl_cons]
      rw [ih]
      simp [ActModule.applyB, Linear.applyB]

/-- The identity module leaves a batch unchanged. -/
lemma identity_applyB (gf sf : ℚ → ℚ) (x : List (List ℚ)) :
    ActModule.identity.applyB gf sf x = x :=
  List.map_id' x

/-- With the identity module the interleaved fold is the plain linear
fold. -/
lemma fold_identity_act (gf sf : ℚ → ℚ) :
    ∀ (hid : List Linear) (x : List (List ℚ)),
      hid.foldl (fun v l => ActModule.identity.applyB gf sf (l.applyB v)) x
        = hid.foldl (fun v l => l.applyB v) x := by
  intro hid
  induction hid with
  | nil => intro x; rfl
  | cons l ls ih => intro x; simp only [List.foldl_cons, identity_applyB, ih]

/-! Claim theorems. -/

/-- C6: `default_model` returns the four values `(input_size,
hidden_size, output_size, activation)` where every explicitly supplied
argument takes precedence over the configuration object and every unset
argument is pulled from the configuration object's corresponding field
(`activ_type` for `activation`).  The resolver is a pure function, so
it has no side effects on its arguments or on the configuration. -/
theorem default_model_merges_explicit_over_cfg
    (i : Option Nat) (h : Option HSpec) (o : Option Nat) (a : Option ActivVal)
    (cfg : Option Container) :
    default_model i h o a cfg =
      (i.orElse (fun _ => cfg.bind Container.input_size),
       h.orElse (fun _ => cfg.bind Container.hidden_size),
       o.orElse (fun _ => cfg.bind Container.output_size),
       a.orElse (fun _ => cfg.bind Container.activ_type)) := by
  cases cfg <;> cases i <;> cases h <;> cases o <;> cases a <;> rfl

/-- C10: constructing a `Net` whose `hidden_size` resolves to an empty
sequence fails at construction with the index error raised by reading
`his[0]`, before any layer is built; non-emptiness of the hidden-size
sequence is an unchecked precondition of the public constructor. -/
theorem empty_hidden_fails (cfg : Option Container) (i : Option Nat)
    (o : Option Nat) (a : Option ActivVal)
    (fresh : Nat → Nat → List (List ℚ) × List ℚ) :
    Net.new cfg i (some (Sum.inr [])) o a fresh = .error .indexError := by
  cases cfg <;> rfl

/-- C7: with the configuration object absent and the explicit arguments
unset, the resolver performs no validation and returns the unset values
unchanged, and constructing a `Net` fails downstream, at the first
framework layer-construction call, which receives the missing value. -/
theorem absent_cfg_fails_downstream
    (fresh : Nat → Nat → List (List ℚ) × List ℚ) :
    (∀ (i : Option Nat) (h : Option HSpec) (o : Option Nat)
        (a : Option ActivVal), default_model i h o a none = (i, h, o, a)) ∧
    Net.new none none none none none fresh = .error .linearArgError :=
  ⟨fun _ _ _ _ => rfl, rfl⟩

/-- C2: a scalar `hidden_size` is wrapped into a one-element sequence,
and the constructed layer chain is exactly one layer from the input
width to the first hidden width, one layer per consecutive pair of
hidden widths, and one layer from the last hidden width to the output
width. -/
theorem net_layer_chain (ins h0 n ous : Nat) (rest : List Nat)
    (acv : Option ActivVal) (fresh : Nat → Nat → List (List ℚ) × List ℚ) :
    Net.new none (some ins) (some (Sum.inl n)) (some ous) acv fresh
      = .ok (Net.build ins n [] ous acv fresh) ∧
    (Net.build ins h0 rest ous acv fresh).layerChain
      = (ins :: h0 :: rest).zip ((h0 :: rest) ++ [ous]) := by
  constructor
  · rfl
  · simp only [Net.layerChain, Net.build, nnLinear, List.map_map]
    rw [List.cons_append, List.zip_cons_cons, zip_tail_snoc]
    simp
    exact List.map_id' _

/-- C4: `get_wb` has length equal to the length of `get_weights` plus
the length of `get_biases`, and its contents are the per-layer
flattened weights and biases interleaved in construction order, each
layer contributing its weights followed by its bias. -/
theorem get_wb_length_and_interleaving (n : Net) :
    n.get_wb.length = n.get_weights.length + n.get_biases.length ∧
    n.get_wb = (n.fc_in.weight.flatten ++ n.fc_in.bias)
        ++ (n.fc_hid.map (fun l => l.weight.flatten ++ l.bias)).flatten
        ++ (n.fc_out.weight.flatten ++ n.fc_out.bias) := by
  have hwb : n.get_wb = (n.fc_in.weight.flatten ++ n.fc_in.bias)
      ++ (n.fc_hid.map (fun l => l.weight.flatten ++ l.bias)).flatten
      ++ (n.fc_out.weight.flatten ++ n.fc_out.bias) := by
    simp only [Net.get_wb]
    rw [foldl_append_flatten]
  have hw : n.get_weights = n.fc_in.weight.flatten
      ++ (n.fc_hid.map (fun l => l.weight.flatten)).flatten
      ++ n.fc_out.weight.flatten := by
    simp only [Net.get_weights]
    rw [foldl_append_flatten]
  have hb : n.get_biases = n.fc_in.bias
      ++ (n.fc_hid.map (fun l => l.bias)).flatten
      ++ n.fc_out.bias := by
    simp only [Net.get_biases]
    rw [foldl_append_flatten]
  refine ⟨?_, hwb⟩
  rw [hwb, hw, hb]
  simp only [List.length_append, List.length_flatten, List.map_map,
    Function.comp_def]
  have hs : (List.map (fun x : Linear =>
        (List.map List.length x.weight).sum + x.bias.length) n.fc_hid).sum
      = (List.map (fun x : Linear =>
          (List.map List.length x.weight).sum) n.fc_hid).sum
        + (List.map (fun x : Linear => x.bias.length) n.fc_hid).sum :=
    sum_map_add _ _ _
  omega

/-- C3: the vector returned by `get_weights` has length (input width ×
first hidden width) + the sum over consecutive hidden pairs of their
product + (last hidden width × output width), and the vector returned
by `get_biases` has length the sum of all hidden widths plus the output
width; at `hidden_size=[4,4]`, `input_size=3`, `output_size=1` these
lengths are 32 and 9 (see the witness). -/
theorem param_vector_lengths (ins h0 : Nat) (rest : List Nat) (ous : Nat)
    (acv : Option ActivVal) (fresh : Nat → Nat → List (List ℚ) × List ℚ)
    (hf : FreshWF fresh) :
    (Net.build ins h0 rest ous acv fresh).get_weights.length
      = ins * h0 + (((h0 :: rest).zip rest).map (fun p => p.1 * p.2)).sum
        + rest.getLastD h0 * ous ∧
    (Net.build ins h0 rest ous acv fresh).get_biases.length
      = (h0 :: rest).sum + ous := by
  have hlen : ∀ a b : Nat, (nnLinear a b fresh).weight.flatten.length = a * b := by
    intro a b
    rw [flatten_length_rect (nnLinear a b fresh).weight b a (hf a b).1
      (hf a b).2.1, Nat.mul_comm]
  have hblen : ∀ a b : Nat, (nnLinear a b fresh).bias.length = b :=
    fun a b => (hf a b).2.2
  constructor
  · have hbuild : (Net.build ins h0 rest ous acv fresh).get_weights
        = (nnLinear ins h0 fresh).weight.flatten
          ++ (((h0 :: rest).zip rest).map
              (fun p => (nnLinear p.1 p.2 fresh).weight.flatten)).flatten
          ++ (nnLinear (rest.getLastD h0) ous fresh).weight.flatten := by
      simp only [Net.get_weights, Net.build, List.tail_cons]
      rw [foldl_append_flatten, List.map_map]
      rfl
    rw [hbuild, List.length_append, List.length_append, hlen ins h0,
      hlen (rest.getLastD h0) ous, List.length_flatten, List.map_map]
    have hm : (((h0 :: rest).zip rest).map
          (List.length ∘ fun p => (nnLinear p.1 p.2 fresh).weight.flatten))
        = ((h0 :: rest).zip rest).map (fun p => p.1 * p.2) :=
      List.map_congr_left (fun p _ => hlen p.1 p.2)
    rw [hm]
  · have hbuild : (Net.build ins h0 rest ous acv fresh).get_biases
        = (nnLinear ins h0 fresh).bias
          ++ (((h0 :: rest).zip rest).map
              (fun p => (nnLinear p.1 p.2 fresh).bias)).flatten
          ++ (nnLinear (rest.getLastD h0) ous fresh).bias := by
      simp only [Net.get_biases, Net.build, List.tail_cons]
      rw [foldl_append_flatten, List.map_map]
      rfl
    rw [hbuild, List.length_append, List.length_append, hblen ins h0,
      hblen (rest.getLastD h0) ous, List.length_flatten, List.map_map]
    have hm : (((h0 :: rest).zip rest).map
          (List.length ∘ fun p => (nnLinear p.1 p.2 fresh).bias))
        = ((h0 :: rest).zip rest).map Prod.snd :=
      List.map_congr_left (fun p _ => hblen p.1 p.2)
    rw [hm, List.map_snd_zip _ _ (by simp), List.sum_cons]

/-- Witness for C3 at the spec's example sizes `3 -> [4, 4] -> 1`. -/
theorem param_vector_lengths_w :
    (Net.build 3 4 [4] 1 none zeroFresh).get_weights.length = 32 ∧
    (Net.build 3 4 [4] 1 none zeroFresh).get_biases.length = 9 := by
  have h := param_vector_lengths 3 4 [4] 1 none zeroFresh zeroFresh_wf
  exact ⟨h.1.trans (by decide), h.2.trans (by decide)⟩

/-- C1: for every network built on a non-empty hidden chain, `forward`
on a batch whose samples carry `input_size` features (directly, or
after flattening an arbitrary-rank sample through the view step)
returns one output sample of `output_size` features per input sample. -/
theorem forward_output_shape (ins h0 : Nat) (rest : List Nat) (ous : Nat)
    (acv : Option ActivVal) (fresh : Nat → Nat → List (List ℚ) × List ℚ)
    (hf : FreshWF fresh) (gf sf : ℚ → ℚ) :
    (∀ x : List (List ℚ), (∀ s ∈ x, s.length = ins) →
      ((Net.build ins h0 rest ous acv fresh).forward gf sf x).length = x.length
        ∧ ∀ r ∈ (Net.build ins h0 rest ous acv fresh).forward gf sf x,
            r.length = ous) ∧
    (∀ y : List (List (List ℚ)), (∀ s ∈ y, s.flatten.length = ins) →
      ((Net.build ins h0 rest ous acv fresh).forward gf sf
          (tensorView y)).length = y.length
        ∧ ∀ r ∈ (Net.build ins h0 rest ous acv fresh).forward gf sf
            (tensorView y), r.length = ous) := by
  have hout : (Net.build ins h0 rest ous acv fresh).fc_out.WF :=
    nnLinear_wf hf _ _
  have h1 : ∀ (L : Linear) (v : List (List ℚ)), (L.applyB v).length = v.length :=
    fun L v => by simp [Linear.applyB]
  have h2 : ∀ (t : ActModule) (v : List (List ℚ)),
      (t.applyB gf sf v).length = v.length :=
    fun t v => by simp [ActModule.applyB]
  have key : ∀ x : List (List ℚ),
      ((Net.build ins h0 rest ous acv fresh).forward gf sf x).length = x.length
        ∧ ∀ r ∈ (Net.build ins h0 rest ous acv fresh).forward gf sf x,
            r.length = ous := by
    intro x
    constructor
    · simp only [Net.forward]
      rw [h1, hidden_fold_length, h2, h1]
    · intro r hr
      simp only [Net.forward, Linear.applyB] at hr
      obtain ⟨s, _, rfl⟩ := List.mem_map.1 hr
      exact Linear.apply_length _ hout s
  constructor
  · exact fun x _ => key x
  · intro y _
    refine ⟨(key (tensorView y)).1.trans ?_, (key (tensorView y)).2⟩
    simp [tensorView]

/-- Witness for C1 at a concrete network and a concrete batch. -/
theorem forward_output_shape_w :
    (∀ s ∈ [[(1 : ℚ), 2]], s.length = 2) ∧
    ((Net.build 2 3 [] 1 none zeroFresh).forward id id [[1, 2]]).length = 1 ∧
    ∀ r ∈ (Net.build 2 3 [] 1 none zeroFresh).forward id id [[1, 2]],
      r.length = 1 := by
  refine ⟨by decide, ?_⟩
  exact (forward_output_shape 2 3 [] 1 none zeroFresh zeroFresh_wf id id).1
    [[1, 2]] (by decide)

/-- C5: every activation value that is not a recognized enumeration
member (including the unset value) selects the identity module with the
printed notice, and the resulting network's forward output equals the
application of only the linear layers. -/
theorem unrecognized_activation_identity (v : Option ActivVal)
    (hv : ∀ a : ActivType, v ≠ some (Sum.inl a)) :
    select_activation v = (ActModule.identity, true) ∧
    ∀ (ins h0 : Nat) (rest : List Nat) (ous : Nat)
      (fresh : Nat → Nat → List (List ℚ) × List ℚ) (gf sf : ℚ → ℚ)
      (x : List (List ℚ)),
      (Net.build ins h0 rest ous v fresh).forward gf sf x
        = (Net.build ins h0 rest ous v fresh).linearOnly x := by
  have hsel : select_activation v = (ActModule.identity, true) := by
    match v with
    | none => rfl
    | some (Sum.inr s) => rfl
    | some (Sum.inl a) => exact absurd rfl (hv a)
  refine ⟨hsel, ?_⟩
  intro ins h0 rest ous fresh gf sf x
  have hact : (Net.build ins h0 rest ous v fresh).act = ActModule.identity := by
    simp [Net.build, hsel]
  simp only [Net.forward, Net.linearOnly, hact, identity_applyB,
    fold_identity_act]

/-- Witness for C5 at the concrete unrecognized value "tanh". -/
theorem unrecognized_activation_identity_w :
    select_activation (some (Sum.inr "tanh")) = (ActModule.identity, true) ∧
    (Net.build 2 3 [] 1 (some (Sum.inr "tanh")) zeroFresh).forward id id
        [[1, 2]]
      = (Net.build 2 3 [] 1 (some (Sum.inr "tanh")) zeroFresh).linearOnly
        [[1, 2]] := by
  have hv : ∀ a : ActivType, (some (Sum.inr "tanh") : Option ActivVal)
      ≠ some (Sum.inl a) := by
    intro a h
    simp at h
  exact ⟨(unrecognized_activation_identity _ hv).1,
    (unrecognized_activation_identity _ hv).2 2 3 [] 1 zeroFresh id id [[1, 2]]⟩

/-- C8: on a freshly constructed network every layer's weight and bias
gradient slot is empty, and `get_grads` fails with the empty-gradient
access error; nothing in the code checks the precondition. -/
theorem grads_empty_before_backward (ins h0 : Nat) (rest : List Nat)
    (ous : Nat) (acv : Option ActivVal)
    (fresh : Nat → Nat → List (List ℚ) × List ℚ) :
    ((Net.build ins h0 rest ous acv fresh).fc_in.wgrad = none
      ∧ (Net.build ins h0 rest ous acv fresh).fc_in.bgrad = none) ∧
    (∀ l ∈ (Net.build ins h0 rest ous acv fresh).fc_hid,
      l.wgrad = none ∧ l.bgrad = none) ∧
    ((Net.build ins h0 rest ous acv fresh).fc_out.wgrad = none
      ∧ (Net.build ins h0 rest ous acv fresh).fc_out.bgrad = none) ∧
    (Net.build ins h0 rest ous acv fresh).get_grads
      = .error .gradAttributeError := by
  refine ⟨⟨rfl, rfl⟩, ?_, ⟨rfl, rfl⟩, rfl⟩
  intro l hl
  simp only [Net.build, List.tail_cons, List.mem_map] at hl
  obtain ⟨p, _, rfl⟩ := hl
  exact ⟨rfl, rfl⟩

/-- C9: the weight-initialization routine overwrites every layer's
weight tensor through the Xavier-uniform sampler, and leaves every
bias, every gradient slot, the dimension chain and the activation
unchanged. -/
theorem init_weights_frame (n : Net)
    (xavier : List (List ℚ) → List (List ℚ)) :
    (n.initWeights xavier).fc_in.weight = xavier n.fc_in.weight ∧
    (n.initWeights xavier).fc_hid.map Linear.weight
      = n.fc_hid.map (fun l => xavier l.weight) ∧
    (n.initWeights xavier).fc_out.weight = xavier n.fc_out.weight ∧
    (n.initWeights xavier).fc_in.bias = n.fc_in.bias ∧
    (n.initWeights xavier).fc_hid.map Linear.bias = n.fc_hid.map Linear.bias ∧
    (n.initWeights xavier).fc_out.bias = n.fc_out.bias ∧
    (n.initWeights xavier).get_biases = n.get_biases ∧
    (n.initWeights xavier).act = n.act ∧
    (n.initWeights xavier).layerChain = n.layerChain ∧
    (n.initWeights xavier).fc_in.wgrad = n.fc_in.wgrad ∧
    (n.initWeights xavier).fc_in.bgrad = n.fc_in.bgrad ∧
    (n.initWeights xavier).fc_hid.map Linear.wgrad
      = n.fc_hid.map Linear.wgrad ∧
    (n.initWeights xavier).fc_hid.map Linear.bgrad
      = n.fc_hid.map Linear.bgrad ∧
    (n.initWeights xavier).fc_out.wgrad = n.fc_out.wgrad ∧
    (n.initWeights xavier).fc_out.bgrad = n.fc_out.bgrad := by
  refine ⟨rfl, ?_, rfl, rfl, ?_, rfl, ?_, rfl, ?_, rfl, rfl, ?_, ?_, rfl, rfl⟩
  · simp [Net.initWeights, List.map_map, Function.comp_def]
  · simp [Net.initWeights, List.map_map, Function.comp_def]
  · simp only [Net.get_biases, Net.initWeights, List.foldl_map]
  · simp [Net.layerChain, Net.initWeights, List.map_map, Function.comp_def]
  · simp [Net.initWeights, List.map_map, Function.comp_def]
  · simp [Net.initWeights, List.map_map, Function.comp_def]

end NISGD
